import Mathlib

/-!
Verification of the spreadsheet batch pipeline
(`src/services/api/fileProcessingService.js`).

Strings are modelled as `List Char`; JavaScript's `substring(0, k)` with a
possibly negative `k` corresponds to `List.take` with truncated `Nat`
subtraction (both clamp at zero).  Fallible operations return `Except`.
-/

namespace SheetSplitter

abbrev Str := List Char

/-- Coerce a Lean string literal to the `List Char` representation. -/
def str (s : String) : Str := s.data

/-- The decimal digit character for `d` (`0 ≤ d ≤ 9`). -/
def digitChar (d : Nat) : Char := Char.ofNat (48 + d)

/-- Fuel-driven decimal rendering of a positive natural number
(the fuel argument makes the recursion structural). -/
def natStrAux : Nat → Nat → Str
  | 0, _ => []
  | fuel + 1, n => if n = 0 then [] else natStrAux fuel (n / 10) ++ [digitChar (n % 10)]

/-- JavaScript `String(n)` for a natural number. -/
def natStr (n : Nat) : Str := if n = 0 then ['0'] else natStrAux n n

/-- JavaScript `String(n)` for an integer. -/
def intStr (n : Int) : Str := if n < 0 then '-' :: natStr n.natAbs else natStr n.natAbs

/-- Whether an `Except` computation succeeded. -/
def okB {ε α : Type} : Except ε α → Bool
  | .ok _ => true
  | .error _ => false

/-- `x` occurs as a contiguous segment of `l`. -/
def occursIn (x l : Str) : Prop := ∃ s t, l = s ++ x ++ t

/-- JavaScript `Array.prototype.join(sep)`. -/
def joinWith (sep : Str) : List Str → Str
  | [] => []
  | [x] => x
  | x :: y :: ys => x ++ sep ++ joinWith sep (y :: ys)

/-! ### Validator (`validateFile`, `validateMultipleFiles`) -/

def validTypes : List Str :=
  [str "application/vnd.openxmlformats-officedocument.spreadsheetml.sheet",
   str "application/vnd.ms-excel"]

def validExtensions : List Str := [str ".xlsx", str ".xls"]

/-- Index accumulator for `lastIndexOfDot`. -/
def lastIndexOfDotAux : Nat → Option Nat → Str → Option Nat
  | _, acc, [] => acc
  | i, acc, c :: cs => lastIndexOfDotAux (i + 1) (if c = '.' then some i else acc) cs

/-- JavaScript `name.lastIndexOf('.')`, as an `Option` instead of `-1`. -/
def lastIndexOfDot (l : Str) : Option Nat := lastIndexOfDotAux 0 none l

/-- `file.name.toLowerCase().slice(file.name.lastIndexOf('.'))`; when there is
no dot, `slice(-1)` yields the final character. -/
def fileExtension (name : Str) : Str :=
  let lower := name.map Char.toLower
  match lastIndexOfDot name with
  | some i => lower.drop i
  | none => lower.drop (lower.length - 1)

structure VFile where
  name : Str
  type : Str
  size : Nat
deriving DecidableEq

def msgInvalidFormat : Str := str "Please upload a valid Excel file (.xlsx or .xls)"

def msgTooLarge : Str := str "File size must be less than 50MB"

/-- Model of `validateFile`: accept when the MIME type or the extension matches,
then enforce the 50MB ceiling. -/
def validateFile (f : VFile) : Except Str Unit :=
  if f.type ∈ validTypes ∨ fileExtension f.name ∈ validExtensions then
    if 50 * 1024 * 1024 < f.size then .error msgTooLarge else .ok ()
  else
    .error msgInvalidFormat

/-- The per-file error lines collected by `validateMultipleFiles`. -/
def validationErrors (files : List VFile) : List Str :=
  files.filterMap fun f =>
    match validateFile f with
    | .ok _ => none
    | .error e => some (f.name ++ str ": " ++ e)

/-- Model of `validateMultipleFiles`: aggregate all per-file failures into one error. -/
def validateMultipleFiles (files : List VFile) : Except Str Unit :=
  let errors := validationErrors files
  if 0 < errors.length then
    .error (str "Validation failed for " ++ natStr errors.length ++ str " file(s):\n" ++
      joinWith (str "\n") errors)
  else
    .ok ()

/-! ### Analyzer (`analyzeWorkbook`, `analyzeMultipleWorkbooks`) -/

/-- A decoded cell range (`XLSX.utils.decode_range` output). -/
structure CellRange where
  sr : Nat
  sc : Nat
  er : Nat
  ec : Nat
deriving DecidableEq

/-- Default range `decode_range('A1:A1')`, used when a sheet has no `!ref`. -/
def rangeA1A1 : CellRange := ⟨0, 0, 0, 0⟩

/-- A parsed worksheet: its declared used range, if any. -/
structure XSheet where
  ref : Option CellRange
deriving DecidableEq

/-- A parsed workbook: named sheets in declared order. -/
structure XWorkbook where
  sheets : List (Str × XSheet)
deriving DecidableEq

structure WorksheetMeta where
  name : Str
  index : Nat
  rowCount : Nat
  columnCount : Nat
  hasData : Bool
deriving DecidableEq

/-- The `SheetNames.map((name, index) => …)` body of `analyzeWorkbook`. -/
def analyzeWorksheetsAux : Nat → List (Str × XSheet) → List WorksheetMeta
  | _, [] => []
  | i, p :: rest =>
    let range := p.2.ref.getD rangeA1A1
    ⟨p.1, i, range.er + 1, range.ec + 1, p.2.ref.isSome⟩ :: analyzeWorksheetsAux (i + 1) rest

def analyzeWorksheets (wb : XWorkbook) : List WorksheetMeta :=
  analyzeWorksheetsAux 0 wb.sheets

structure WorkbookAnalysis where
  fileName : Str
  worksheets : List WorksheetMeta
deriving DecidableEq

/-- An input file for analysis: `readable = false` models a `FileReader`
error, `parse = none` models `XLSX.read` throwing on a corrupt container. -/
structure AFile where
  name : Str
  readable : Bool
  parse : Option XWorkbook
deriving DecidableEq

def msgCorrupt : Str := str "Failed to read Excel file. Please ensure it is not corrupted."

def msgReadFail : Str := str "Failed to read file"

def analyzeWorkbook (f : AFile) : Except Str WorkbookAnalysis :=
  if f.readable then
    match f.parse with
    | some wb => .ok ⟨f.name, analyzeWorksheets wb⟩
    | none => .error msgCorrupt
  else
    .error msgReadFail

/-- Model of `analyzeMultipleWorkbooks`: in input order, fail fast, wrapping the
failing file's name into the message. -/
def analyzeMultipleWorkbooks : List AFile → Except Str (List WorkbookAnalysis)
  | [] => .ok []
  | f :: fs =>
    match analyzeWorkbook f with
    | .error e => .error (str "Failed to analyze " ++ f.name ++ str ": " ++ e)
    | .ok a =>
      match analyzeMultipleWorkbooks fs with
      | .error e => .error e
      | .ok rest => .ok (a :: rest)

/-! ### Combiner (`combineAllSheets`) -/

/-- Model of `analysis.file.name.replace(/\.[^/.]+$/, '')`: strip a final extension
(a dot followed by one or more characters that are neither `.` nor `/`). -/
def stripExt (s : Str) : Str :=
  let r := s.reverse
  let ext := r.takeWhile fun c => ¬(c = '.' ∨ c = '/')
  if 0 < ext.length ∧ (r.drop ext.length).head? = some '.' then
    ((r.drop ext.length).drop 1).reverse
  else s

/-- The candidate name `${fileBaseName}_${worksheet.name}`, truncated to the
31-character limit by shortening the file-name portion
(`substring(0, 31 - name.length - 1)`; `Nat` subtraction models the
clamping of a negative JavaScript `substring` argument). -/
def truncateCandidate (fileBaseName sheetName : Str) : Str :=
  let newSheetName := fileBaseName ++ '_' :: sheetName
  if 31 < newSheetName.length then
    let maxFileNameLength := 31 - sheetName.length - 1
    fileBaseName.take maxFileNameLength ++ '_' :: sheetName
  else newSheetName

/-- The collision suffix `` `_${counter}` ``. -/
def numSuffix (c : Nat) : Str := '_' :: natStr c

/-- One iteration of the collision loop:
`newSheetName.substring(0, 31 - suffix.length) + suffix`. -/
def candidateAt (newSheetName : Str) (c : Nat) : Str :=
  newSheetName.take (31 - (numSuffix c).length) ++ numSuffix c

/-- The `while (combinedWorkbook.Sheets[finalSheetName])` loop, with explicit
fuel; `used.length + 1` tries always suffice (shown below), so the fuel
never actually runs out. -/
def findName (used : List Str) (newSheetName : Str) : Nat → Nat → Str
  | 0, c => candidateAt newSheetName c
  | fuel + 1, c =>
    if candidateAt newSheetName c ∈ used then findName used newSheetName fuel (c + 1)
    else candidateAt newSheetName c

/-- Resolve a (possibly truncated) candidate name against the set of names
already present in the combined workbook. -/
def resolveName (used : List Str) (newSheetName : Str) : Str :=
  if newSheetName ∈ used then findName used newSheetName (used.length + 1) 1
  else newSheetName

/-- JavaScript `Math.round((k / n) * 100)` on exact rationals:
`⌊(100k/n) + 1/2⌋ = ⌊(200k + n) / (2n)⌋`. -/
def jsRound (k n : Nat) : Nat := (200 * k + n) / (2 * n)

/-- The state grown by the combine loop: assigned sheet names in order, the
`processedSheets` counter, and the reported progress values. -/
structure CombineState where
  names : List Str
  processed : Nat
  trace : List Nat
deriving DecidableEq

/-- The inner worksheet loop of `combineAllSheets`. -/
def combineSheetsGo (total : Nat) (fileBaseName : Str) :
    List WorksheetMeta → CombineState → CombineState
  | [], st => st
  | w :: ws, st =>
    let finalSheetName := resolveName st.names (truncateCandidate fileBaseName w.name)
    combineSheetsGo total fileBaseName ws
      ⟨st.names ++ [finalSheetName], st.processed + 1,
       st.trace ++ [jsRound (st.processed + 1) total]⟩

/-- The up-front worksheet count of `combineAllSheets`. -/
def totalSheets (analyses : List WorkbookAnalysis) : Nat :=
  (analyses.map fun a => a.worksheets.length).sum

/-- Model of `combineAllSheets`: fold the per-file worksheet loop over all analyses. -/
def combineAllSheets (analyses : List WorkbookAnalysis) : CombineState :=
  analyses.foldl
    (fun st a => combineSheetsGo (totalSheets analyses) (stripExt a.fileName) a.worksheets st)
    ⟨[], 0, []⟩

/-! ### SheetRenderer (`processWorksheets` inner row loop) -/

/-- A JavaScript cell value as produced by
`sheet_to_json(sheet, { header: 1, defval: '' })`. -/
inductive JSVal where
  | str (s : Str)
  | num (n : Int)
  | boolean (b : Bool)
deriving DecidableEq

/-- JavaScript truthiness of a cell value. -/
def jsFalsy : JSVal → Bool
  | .str s => s.isEmpty
  | .num n => n == 0
  | .boolean b => !b

/-- JavaScript `String(v)`. -/
def jsToString : JSVal → Str
  | .str s => s
  | .num n => intStr n
  | .boolean b => if b then str "true" else str "false"

/-- Model of `String(row[colIndex] || '')`: falsy values are replaced by `''`. -/
def renderCell (v : JSVal) : Str := if jsFalsy v then [] else jsToString v

/-- The text placed into the document for one cell, with the 15-character
ellipsis truncation. -/
def renderText (v : JSVal) : Str :=
  let s := renderCell v
  if 15 < s.length then s.take 15 ++ str "..." else s

/-- The rendered cells of one data row:
`for (colIndex < row.length && colIndex < 8)`. -/
def renderRow (row : List JSVal) : List Str := (row.take 8).map renderText

/-- All rendered data rows of one worksheet, in row order. -/
def renderRows (rows : List (List JSVal)) : List (List Str) := rows.map renderRow

/-! ### Concrete inputs used by counterexamples and witnesses -/

/-- A 31-character sheet name (the maximum the container format allows). -/
def name31 : Str := List.replicate 31 'S'

/-- One analysis whose only worksheet carries the 31-character name. -/
def cexAnalyses : List WorkbookAnalysis :=
  [⟨str "a.xlsx", [⟨name31, 0, 1, 1, true⟩]⟩]

/-- Two files with two and three worksheets: five worksheets in total. -/
def exProgressAnalyses : List WorkbookAnalysis :=
  [⟨str "f1.xlsx", [⟨str "Sheet1", 0, 1, 1, true⟩, ⟨str "Sheet2", 1, 1, 1, true⟩]⟩,
   ⟨str "f2.xlsx", [⟨str "SheetA", 0, 1, 1, true⟩, ⟨str "SheetB", 1, 1, 1, true⟩,
                    ⟨str "SheetC", 2, 1, 1, true⟩]⟩]

/-- A small well-behaved combiner input. -/
def exSmallAnalyses : List WorkbookAnalysis :=
  [⟨str "f1.xlsx", [⟨str "Sheet1", 0, 1, 1, true⟩]⟩]

/-- A file failing validation (wrong type and extension). -/
def badVFile : VFile := ⟨str "bad.txt", str "text/plain", 10⟩

/-- A file passing validation. -/
def goodVFile : VFile :=
  ⟨str "book.xlsx", str "application/vnd.ms-excel", 1000⟩

/-- A readable, parseable workbook file with one ranged and one empty sheet. -/
def goodAFile : AFile :=
  ⟨str "A.xlsx", true, some ⟨[(str "S1", ⟨some ⟨0, 0, 2, 4⟩⟩), (str "S2", ⟨none⟩)]⟩⟩

/-- A corrupt workbook file (`XLSX.read` throws). -/
def corruptAFile : AFile := ⟨str "B.xlsx", true, none⟩

/-- A ten-column row of cell values. -/
def tenColRow : List JSVal :=
  [.str (str "c0"), .str (str "c1"), .str (str "c2"), .str (str "c3"), .str (str "c4"),
   .str (str "c5"), .str (str "c6"), .str (str "c7"), .str (str "c8"), .str (str "c9")]

/-- A 40-character file base name. -/
def exLongBase : Str := List.replicate 40 'F'

/-- A workbook with one ranged sheet and one sheet without a declared range. -/
def exWb : XWorkbook := ⟨[(str "S1", ⟨some ⟨0, 0, 2, 4⟩⟩), (str "S2", ⟨none⟩)]⟩

/-! ### Lemmas and claim theorems -/

theorem natStrAux_eq (fuel : Nat) : ∀ n : Nat, n ≤ fuel →
    natStrAux fuel n = ((Nat.digits 10 n).map digitChar).reverse := by
  induction fuel with
  | zero =>
    intro n hn
    interval_cases n
    simp [natStrAux]
  | succ fuel ih =>
    intro n hn
    by_cases hz : n = 0
    · subst hz; simp [natStrAux]
    · rw [natStrAux, if_neg hz, ih (n / 10) (by
        have := Nat.div_lt_self (Nat.pos_of_ne_zero hz) (by norm_num : (1:Nat) < 10)
        omega)]
      rw [Nat.digits_def' (by norm_num : (1:Nat) < 10) (Nat.pos_of_ne_zero hz)]
      simp

theorem natStr_eq {n : Nat} (hn : n ≠ 0) :
    natStr n = ((Nat.digits 10 n).map digitChar).reverse := by
  rw [natStr, if_neg hn, natStrAux_eq n n le_rfl]

theorem underscore_not_mem_natStr (n : Nat) : '_' ∉ natStr n := by
  by_cases hz : n = 0
  · subst hz; decide
  · rw [natStr_eq hz]
    intro hmem
    rw [List.mem_reverse, List.mem_map] at hmem
    obtain ⟨d, hd, hEq⟩ := hmem
    have hlt : d < 10 := Nat.digits_lt_base (by norm_num) hd
    have hne : ∀ d, d < 10 → digitChar d ≠ '_' := by decide
    exact hne d hlt hEq

theorem digitChar_inj : ∀ a, a < 10 → ∀ b, b < 10 → digitChar a = digitChar b → a = b := by
  decide

theorem map_digitChar_inj : ∀ (l₁ l₂ : List Nat), (∀ d ∈ l₁, d < 10) → (∀ d ∈ l₂, d < 10) →
    l₁.map digitChar = l₂.map digitChar → l₁ = l₂ := by
  intro l₁
  induction l₁ with
  | nil => intro l₂ _ _ h; cases l₂ <;> simp_all
  | cons a l₁ ih =>
    intro l₂ h₁ h₂ h
    cases l₂ with
    | nil => simp at h
    | cons b l₂ =>
      simp only [List.map_cons, List.cons.injEq] at h
      have ha : a = b := digitChar_inj a (h₁ a (by simp)) b (h₂ b (by simp)) h.1
      have := ih l₂ (fun d hd => h₁ d (by simp [hd])) (fun d hd => h₂ d (by simp [hd])) h.2
      simp [ha, this]

theorem natStr_eq_zero {b : Nat} (h : natStr b = ['0']) : b = 0 := by
  by_cases hb : b = 0
  · exact hb
  · exfalso
    rw [natStr_eq hb] at h
    have hdig : Nat.digits 10 b = [0] := by
      apply map_digitChar_inj (Nat.digits 10 b) [0]
        (fun d hd => Nat.digits_lt_base (by norm_num) hd) (by norm_num)
      rw [← List.reverse_inj]
      simpa using h
    have hb0 := Nat.ofDigits_digits 10 b
    rw [hdig] at hb0
    simp [Nat.ofDigits] at hb0
    omega

theorem natStr_inj {a b : Nat} (h : natStr a = natStr b) : a = b := by
  by_cases ha : a = 0 <;> by_cases hb : b = 0
  · omega
  · subst ha
    rw [show natStr 0 = ['0'] from rfl] at h
    exact (natStr_eq_zero h.symm).symm
  · subst hb
    rw [show natStr 0 = ['0'] from rfl] at h
    exact natStr_eq_zero h
  · rw [natStr_eq ha, natStr_eq hb, List.reverse_inj] at h
    have hdig := map_digitChar_inj _ _
      (fun d hd => Nat.digits_lt_base (by norm_num) hd)
      (fun d hd => Nat.digits_lt_base (by norm_num) hd) h
    have h1 := Nat.ofDigits_digits 10 a
    have h2 := Nat.ofDigits_digits 10 b
    rw [hdig] at h1
    rw [h1] at h2
    exact h2

theorem natStr_length_le (n k : Nat) (hk : 0 < k) (h : n < 10 ^ k) :
    (natStr n).length ≤ k := by
  by_cases hz : n = 0
  · subst hz; simpa [natStr] using hk
  · rw [natStr_eq hz]
    simp only [List.length_reverse, List.length_map]
    rw [Nat.digits_len 10 n (by norm_num) hz]
    have := (Nat.lt_pow_iff_log_lt (by norm_num : 1 < 10) hz).mp h
    omega

theorem drop_isSuffix (l : Str) (n : Nat) : l.drop n <:+ l :=
  ⟨l.take n, List.take_append_drop n l⟩

theorem suffix_of_suffix_length_le {l₁ l₂ l : Str} (h₁ : l₁ <:+ l) (h₂ : l₂ <:+ l)
    (hle : l₁.length ≤ l₂.length) : l₁ <:+ l₂ := by
  obtain ⟨s, hs⟩ := h₁
  obtain ⟨t, ht⟩ := h₂
  have hsl : l₁ = l.drop s.length := by rw [← hs, List.drop_left]
  have htl : l₂ = l.drop t.length := by rw [← ht, List.drop_left]
  have hs' := congrArg List.length hs
  have ht' := congrArg List.length ht
  simp only [List.length_append] at hs' ht'
  rw [hsl, htl]
  have hdd : l.drop s.length = (l.drop t.length).drop (s.length - t.length) := by
    rw [List.drop_drop]
    congr 1
    omega
  rw [hdd]
  exact drop_isSuffix _ _

theorem numSuffix_suffix_inj {c c' : Nat} (h : numSuffix c <:+ numSuffix c') : c = c' := by
  obtain ⟨p, hp⟩ := h
  cases p with
  | nil =>
    simp only [List.nil_append, numSuffix, List.cons.injEq] at hp
    exact natStr_inj hp.2
  | cons a p' =>
    exfalso
    simp only [numSuffix, List.cons_append, List.cons.injEq] at hp
    apply underscore_not_mem_natStr c'
    rw [← hp.2]
    simp

theorem candidateAt_inj (n : Str) {c c' : Nat} (h : candidateAt n c = candidateAt n c') :
    c = c' := by
  have h₁ : numSuffix c <:+ candidateAt n c := ⟨_, rfl⟩
  have h₂ : numSuffix c' <:+ candidateAt n c' := ⟨_, rfl⟩
  rw [h] at h₁
  rcases le_total (numSuffix c).length (numSuffix c').length with hle | hle
  · exact numSuffix_suffix_inj (suffix_of_suffix_length_le h₁ h₂ hle)
  · exact (numSuffix_suffix_inj (suffix_of_suffix_length_le h₂ h₁ hle)).symm

theorem exists_fresh_candidate (used : List Str) (n : Str) :
    ∃ i, 1 ≤ i ∧ i < used.length + 2 ∧ candidateAt n i ∉ used := by
  by_contra hcon
  push_neg at hcon
  have hinj : Function.Injective fun j : Nat => candidateAt n (j + 1) := by
    intro a b hab
    have := candidateAt_inj n hab
    omega
  have hnd : ((List.range (used.length + 1)).map fun j => candidateAt n (j + 1)).Nodup :=
    (List.nodup_range _).map hinj
  have hsub : ((List.range (used.length + 1)).map fun j => candidateAt n (j + 1)) ⊆ used := by
    intro x hx
    rw [List.mem_map] at hx
    obtain ⟨j, hj, rfl⟩ := hx
    rw [List.mem_range] at hj
    exact hcon (j + 1) (by omega) (by omega)
  have hlen := (List.subperm_of_subset hnd hsub).length_le
  simp only [List.length_map, List.length_range] at hlen
  omega

theorem findName_spec (used : List Str) (n : Str) :
    ∀ fuel c, ∃ c', c ≤ c' ∧ c' ≤ c + fuel ∧ findName used n fuel c = candidateAt n c' := by
  intro fuel
  induction fuel with
  | zero => intro c; exact ⟨c, le_rfl, by omega, rfl⟩
  | succ fuel ih =>
    intro c
    rw [findName]
    split
    · obtain ⟨c', h1, h2, h3⟩ := ih (c + 1)
      exact ⟨c', by omega, by omega, h3⟩
    · exact ⟨c, le_rfl, by omega, rfl⟩

theorem findName_not_mem (used : List Str) (n : Str) :
    ∀ fuel c, (∃ i, c ≤ i ∧ i < c + fuel ∧ candidateAt n i ∉ used) →
      findName used n fuel c ∉ used := by
  intro fuel
  induction fuel with
  | zero =>
    intro c h
    obtain ⟨i, h1, h2, _⟩ := h
    omega
  | succ fuel ih =>
    intro c h
    obtain ⟨i, h1, h2, h3⟩ := h
    rw [findName]
    split
    · rename_i hmem
      apply ih (c + 1)
      refine ⟨i, ?_, by omega, h3⟩
      rcases Nat.eq_or_lt_of_le h1 with rfl | hlt
      · exact absurd hmem h3
      · omega
    · rename_i hmem
      exact hmem

theorem resolveName_not_mem (used : List Str) (n : Str) : resolveName used n ∉ used := by
  rw [resolveName]
  split
  · apply findName_not_mem
    obtain ⟨i, h1, h2, h3⟩ := exists_fresh_candidate used n
    exact ⟨i, h1, by omega, h3⟩
  · rename_i hmem
    exact hmem

theorem candidateAt_length_le (n : Str) (c : Nat) (h : (natStr c).length ≤ 30) :
    (candidateAt n c).length ≤ 31 := by
  simp only [candidateAt, numSuffix, List.length_append, List.length_take, List.length_cons]
  omega

theorem resolveName_length_le (used : List Str) (n : Str) (hn : n.length ≤ 31)
    (hb : used.length + 2 < 10 ^ 30) : (resolveName used n).length ≤ 31 := by
  rw [resolveName]
  split
  · obtain ⟨c', h1, h2, h3⟩ := findName_spec used n (used.length + 1) 1
    rw [h3]
    apply candidateAt_length_le
    apply natStr_length_le _ 30 (by norm_num)
    calc c' ≤ 1 + (used.length + 1) := h2
    _ < 10 ^ 30 := by omega
  · exact hn


theorem truncateCandidate_length_le (b s : Str) (hs : s.length ≤ 30) :
    (truncateCandidate b s).length ≤ 31 := by
  rw [truncateCandidate]
  split
  · simp only [List.length_append, List.length_take, List.length_cons]
    omega
  · rename_i hle
    omega

theorem combineSheetsGo_names_nodup (total : Nat) (b : Str) (ws : List WorksheetMeta) :
    ∀ st : CombineState, st.names.Nodup → (combineSheetsGo total b ws st).names.Nodup := by
  induction ws with
  | nil => intro st h; exact h
  | cons w ws ih =>
    intro st h
    rw [combineSheetsGo]
    apply ih
    simp only [List.nodup_append, List.nodup_cons, List.not_mem_nil, not_false_iff,
      List.nodup_nil, true_and, and_true]
    refine ⟨h, ?_⟩
    intro a ha hb
    rw [List.mem_singleton] at hb
    subst hb
    exact resolveName_not_mem st.names _ ha

theorem combineFold_names_nodup (T : Nat) (l : List WorkbookAnalysis) :
    ∀ st : CombineState, st.names.Nodup →
      (l.foldl (fun st a => combineSheetsGo T (stripExt a.fileName) a.worksheets st) st).names.Nodup := by
  induction l with
  | nil => intro st h; exact h
  | cons a l ih =>
    intro st h
    simp only [List.foldl_cons]
    exact ih _ (combineSheetsGo_names_nodup _ _ _ _ h)

theorem combineSheetsGo_processed (total : Nat) (b : Str) :
    ∀ (ws : List WorksheetMeta) (st : CombineState),
      (combineSheetsGo total b ws st).processed = st.processed + ws.length := by
  intro ws
  induction ws with
  | nil => intro st; simp [combineSheetsGo]
  | cons w ws ih =>
    intro st
    rw [combineSheetsGo, ih]
    simp only [List.length_cons]
    omega

theorem combineSheetsGo_names_length (total : Nat) (b : Str) :
    ∀ (ws : List WorksheetMeta) (st : CombineState),
      (combineSheetsGo total b ws st).names.length = st.names.length + ws.length := by
  intro ws
  induction ws with
  | nil => intro st; simp [combineSheetsGo]
  | cons w ws ih =>
    intro st
    rw [combineSheetsGo, ih]
    simp only [List.length_cons, List.length_append, List.length_singleton, List.length_nil]
    omega

theorem combineSheetsGo_trace (total : Nat) (b : Str) :
    ∀ (ws : List WorksheetMeta) (st : CombineState),
      (combineSheetsGo total b ws st).trace =
        st.trace ++ (List.range ws.length).map fun k => jsRound (st.processed + k + 1) total := by
  intro ws
  induction ws with
  | nil => intro st; simp [combineSheetsGo]
  | cons w ws ih =>
    intro st
    rw [combineSheetsGo, ih]
    simp only [List.length_cons, List.range_succ_eq_map, List.map_cons, List.map_map,
      List.append_assoc, List.singleton_append]
    congr 1
    congr 1
    apply List.map_congr_left
    intro k _
    simp only [Function.comp_apply]
    congr 1
    omega

theorem range_map_add {α : Type} (m n : Nat) (f : Nat → α) :
    (List.range (m + n)).map f = (List.range m).map f ++ (List.range n).map fun k => f (m + k) := by
  induction n with
  | zero => simp
  | succ n ih =>
    rw [show m + (n + 1) = (m + n) + 1 from rfl, List.range_succ, List.map_append, ih,
      List.range_succ, List.map_append]
    simp [List.append_assoc]

theorem combineFold_spec (T : Nat) (l : List WorkbookAnalysis) :
    ∀ st : CombineState,
      (l.foldl (fun st a => combineSheetsGo T (stripExt a.fileName) a.worksheets st) st).processed
        = st.processed + totalSheets l ∧
      (l.foldl (fun st a => combineSheetsGo T (stripExt a.fileName) a.worksheets st) st).names.length
        = st.names.length + totalSheets l ∧
      (l.foldl (fun st a => combineSheetsGo T (stripExt a.fileName) a.worksheets st) st).trace
        = st.trace ++ (List.range (totalSheets l)).map fun k => jsRound (st.processed + k + 1) T := by
  induction l with
  | nil => intro st; simp [totalSheets]
  | cons a l ih =>
    intro st
    simp only [List.foldl_cons]
    obtain ⟨h1, h2, h3⟩ := ih (combineSheetsGo T (stripExt a.fileName) a.worksheets st)
    have g1 := combineSheetsGo_processed T (stripExt a.fileName) a.worksheets st
    have g2 := combineSheetsGo_names_length T (stripExt a.fileName) a.worksheets st
    have g3 := combineSheetsGo_trace T (stripExt a.fileName) a.worksheets st
    have htot : totalSheets (a :: l) = a.worksheets.length + totalSheets l := by
      simp [totalSheets]
    refine ⟨by rw [h1, g1, htot]; omega, by rw [h2, g2, htot]; omega, ?_⟩
    rw [h3, g3, g1, htot, range_map_add, List.append_assoc]
    congr 2
    apply List.map_congr_left
    intro k _
    congr 1
    omega

theorem jsRound_mono (n : Nat) {a b : Nat} (h : a ≤ b) : jsRound a n ≤ jsRound b n :=
  Nat.div_le_div_right (by omega)

theorem jsRound_self (n : Nat) (h : 0 < n) : jsRound n n = 100 := by
  rw [jsRound, show 200 * n + n = n + 2 * n * 100 by ring,
    Nat.add_mul_div_left _ _ (by omega : 0 < 2 * n), Nat.div_eq_of_lt (by omega)]


/-- Claim C3: for every list of analyses given to the Combiner, the final
sheet names in the combined workbook are pairwise distinct — each inserted
name is either the fresh candidate or the first non-colliding suffixed
candidate, so it never repeats an already assigned name. -/
theorem combine_names_nodup (analyses : List WorkbookAnalysis) :
    (combineAllSheets analyses).names.Nodup := by
  rw [combineAllSheets]
  exact combineFold_names_nodup _ analyses ⟨[], 0, []⟩ (by simp)

/-- Claim C8: over `N ≥ 1` worksheets the Combiner reports progress exactly
once per worksheet, with value `round(k / N * 100)` for the `k`-th worksheet,
so the sequence is monotonically non-decreasing and ends at 100. -/
theorem combine_progress_spec (analyses : List WorkbookAnalysis)
    (hN : 0 < totalSheets analyses) :
    (combineAllSheets analyses).trace.length = totalSheets analyses ∧
    (combineAllSheets analyses).trace =
      (List.range (totalSheets analyses)).map (fun k => jsRound (k + 1) (totalSheets analyses)) ∧
    List.Pairwise (· ≤ ·) (combineAllSheets analyses).trace ∧
    (combineAllSheets analyses).trace.getLast? = some 100 := by
  have h3 := (combineFold_spec (totalSheets analyses) analyses ⟨[], 0, []⟩).2.2
  rw [combineAllSheets]
  rw [show (⟨[], 0, []⟩ : CombineState).trace = [] from rfl] at h3
  rw [show (⟨[], 0, []⟩ : CombineState).processed = 0 from rfl] at h3
  rw [List.nil_append] at h3
  have hform : (combineAllSheets analyses).trace
      = (List.range (totalSheets analyses)).map fun k => jsRound (k + 1) (totalSheets analyses) := by
    rw [combineAllSheets, h3]
    apply List.map_congr_left
    intro k _
    congr 1
    omega
  rw [combineAllSheets] at hform
  refine ⟨by rw [hform]; simp, hform, ?_, ?_⟩
  · rw [hform]
    rw [List.pairwise_map]
    apply List.Pairwise.imp ?_ (List.pairwise_lt_range (totalSheets analyses))
    intro a b hab
    exact jsRound_mono _ (by omega)
  · obtain ⟨m, hm⟩ : ∃ m, totalSheets analyses = m + 1 := ⟨totalSheets analyses - 1, by omega⟩
    rw [hform, hm, List.range_succ, List.map_append, List.map_singleton, List.getLast?_concat,
      show m + 1 = totalSheets analyses from hm.symm, jsRound_self _ hN]


theorem combineSheetsGo_names_le31 (total : Nat) (b : Str) (ws : List WorksheetMeta) :
    ∀ st : CombineState, (∀ w ∈ ws, w.name.length ≤ 30) →
      (∀ m ∈ st.names, m.length ≤ 31) →
      st.names.length + ws.length ≤ 10 ^ 29 →
      ∀ m ∈ (combineSheetsGo total b ws st).names, m.length ≤ 31 := by
  induction ws with
  | nil => intro st _ h _; exact h
  | cons w ws ih =>
    intro st hws h hlen
    rw [combineSheetsGo]
    apply ih
    · intro w' hw'
      exact hws w' (List.mem_cons_of_mem _ hw')
    · intro m hm
      rw [List.mem_append] at hm
      rcases hm with hm | hm
      · exact h m hm
      · rw [List.mem_singleton] at hm
        subst hm
        apply resolveName_length_le
        · exact truncateCandidate_length_le _ _ (hws w (List.mem_cons_self _ _))
        · have hpow : (10:Nat) ^ 29 < 10 ^ 30 := by norm_num
          simp only [List.length_cons] at hlen
          omega
    · simp only [List.length_append, List.length_singleton, List.length_cons,
        List.length_nil] at hlen ⊢
      omega

theorem combineFold_names_le31 (T : Nat) (l : List WorkbookAnalysis) :
    ∀ st : CombineState, (∀ a ∈ l, ∀ w ∈ a.worksheets, w.name.length ≤ 30) →
      (∀ m ∈ st.names, m.length ≤ 31) →
      st.names.length + totalSheets l ≤ 10 ^ 29 →
      ∀ m ∈ (l.foldl (fun st a => combineSheetsGo T (stripExt a.fileName) a.worksheets st) st).names,
        m.length ≤ 31 := by
  induction l with
  | nil => intro st _ h _; simpa using h
  | cons a l ih =>
    intro st hl h hlen
    have htot : totalSheets (a :: l) = a.worksheets.length + totalSheets l := by
      simp [totalSheets]
    rw [htot] at hlen
    simp only [List.foldl_cons]
    apply ih
    · intro a' ha'
      exact hl a' (List.mem_cons_of_mem _ ha')
    · exact combineSheetsGo_names_le31 T (stripExt a.fileName) a.worksheets st
        (hl a (List.mem_cons_self _ _)) h (by omega)
    · rw [combineSheetsGo_names_length]
      omega

/-- Claim C1 (amended): provided every original worksheet name has at most 30
characters and the batch holds at most `10 ^ 29` worksheets, every final sheet
name placed into the combined workbook — taken directly, truncated, or
disambiguated with a numeric suffix — has length at most 31. -/
theorem combine_names_le31 (analyses : List WorkbookAnalysis)
    (hname : ∀ a ∈ analyses, ∀ w ∈ a.worksheets, w.name.length ≤ 30)
    (htot : totalSheets analyses ≤ 10 ^ 29) :
    ∀ m ∈ (combineAllSheets analyses).names, m.length ≤ 31 := by
  rw [combineAllSheets]
  exact combineFold_names_le31 _ analyses ⟨[], 0, []⟩ hname (by simp) (by simpa)

/-- Claim C2 (amended): for a worksheet whose original name has at most 30
characters and whose candidate `<fileBaseName>_<originalSheetName>` exceeds 31
characters, the truncation step shortens only the file-name prefix: the result
has exactly 31 characters and still ends with `_<originalSheetName>`. -/
theorem truncate_keeps_sheet_suffix (b s : Str) (hs : s.length ≤ 30)
    (hover : 31 < (b ++ '_' :: s).length) :
    (truncateCandidate b s).length = 31 ∧
    ('_' :: s) <:+ truncateCandidate b s ∧
    truncateCandidate b s = b.take (30 - s.length) ++ '_' :: s := by
  have hb : 31 - s.length - 1 = 30 - s.length := by omega
  have hlen : 31 < b.length + (s.length + 1) := by
    simpa [List.length_append] using hover
  rw [truncateCandidate, if_pos hover, hb]
  refine ⟨?_, ⟨_, rfl⟩, rfl⟩
  simp only [List.length_append, List.length_take, List.length_cons]
  omega


theorem analyzeWorksheetsAux_map_name : ∀ (i : Nat) (l : List (Str × XSheet)),
    (analyzeWorksheetsAux i l).map (fun m => m.name) = l.map fun p => p.1 := by
  intro i l
  induction l generalizing i with
  | nil => simp [analyzeWorksheetsAux]
  | cons p rest ih => simp [analyzeWorksheetsAux, ih]

theorem analyzeWorksheetsAux_getElem? : ∀ (i j : Nat) (l : List (Str × XSheet)),
    j < l.length →
    ∀ p, l[j]? = some p →
      (analyzeWorksheetsAux i l)[j]? = some ⟨p.1, i + j,
        (p.2.ref.getD rangeA1A1).er + 1, (p.2.ref.getD rangeA1A1).ec + 1, p.2.ref.isSome⟩ := by
  intro i j l
  induction l generalizing i j with
  | nil => intro h; simp at h
  | cons q rest ih =>
    intro hj p hp
    cases j with
    | zero =>
      simp only [List.getElem?_cons_zero, Option.some.injEq] at hp
      subst hp
      simp [analyzeWorksheetsAux]
    | succ j =>
      simp only [List.getElem?_cons_succ] at hp
      simp only [analyzeWorksheetsAux, List.getElem?_cons_succ]
      have := ih (i + 1) j (by simpa using Nat.lt_of_succ_lt_succ hj) p hp
      rw [this]
      congr 2
      omega

/-- Claim C7: for every analyzed workbook, worksheets are listed in declared
order; a worksheet with no declared used range yields `rowCount = 1`,
`columnCount = 1`, `hasData = false`, and a worksheet with a declared range
yields `hasData = true` and counts equal to the declared end extent. -/
theorem analyzeWorksheets_spec (wb : XWorkbook) (i : Nat) (hi : i < wb.sheets.length) :
    (analyzeWorksheets wb).map (fun m => m.name) = wb.sheets.map (fun p => p.1) ∧
    ∃ m, (analyzeWorksheets wb)[i]? = some m ∧
      m.name = wb.sheets[i].1 ∧ m.index = i ∧
      (wb.sheets[i].2.ref = none → m.rowCount = 1 ∧ m.columnCount = 1 ∧ m.hasData = false) ∧
      ∀ r, wb.sheets[i].2.ref = some r →
        m.rowCount = r.er + 1 ∧ m.columnCount = r.ec + 1 ∧ m.hasData = true := by
  refine ⟨analyzeWorksheetsAux_map_name 0 wb.sheets, ?_⟩
  have hp : wb.sheets[i]? = some wb.sheets[i] := List.getElem?_eq_getElem hi
  have h := analyzeWorksheetsAux_getElem? 0 i wb.sheets hi wb.sheets[i] hp
  refine ⟨_, h, rfl, by simp, ?_, ?_⟩
  · intro hnone
    simp [hnone, rangeA1A1]
  · intro r hr
    simp [hr]


/-- Claim C9: each rendered data row contains at most its first 8 columns,
with row order and the order of the first 8 columns preserved; no cell with
column index 8 or greater appears. -/
theorem renderRows_caps8 (rows : List (List JSVal)) (i j : Nat) :
    (renderRows rows).length = rows.length ∧
    ∀ r row, (renderRows rows)[i]? = some r → rows[i]? = some row →
      r.length ≤ 8 ∧ r = (row.take 8).map renderText ∧
      (j < 8 → r[j]? = row[j]?.map renderText) := by
  refine ⟨by simp [renderRows], ?_⟩
  intro r row hr hrow
  have hr' : r = renderRow row := by
    rw [renderRows, List.getElem?_map, hrow] at hr
    simpa using hr.symm
  subst hr'
  refine ⟨?_, rfl, ?_⟩
  · simp only [renderRow, List.length_map, List.length_take]
    omega
  · intro hj
    rw [renderRow, List.getElem?_map, List.getElem?_take, if_pos hj]

/-- Claim C10: every falsy cell value — including the number 0 and the
boolean `false`, not only blank cells — renders as the empty string. -/
theorem renderCell_falsy_empty (v : JSVal) (h : jsFalsy v = true) :
    renderCell v = [] ∧ renderText v = [] := by
  have h1 : renderCell v = [] := by rw [renderCell, if_pos h]
  refine ⟨h1, ?_⟩
  rw [renderText, h1]
  simp


theorem occursIn_append_left (x m p : Str) (h : occursIn x m) : occursIn x (p ++ m) := by
  obtain ⟨s, t, rfl⟩ := h
  exact ⟨p ++ s, t, by simp [List.append_assoc]⟩

theorem occursIn_append_right (x m q : Str) (h : occursIn x m) : occursIn x (m ++ q) := by
  obtain ⟨s, t, rfl⟩ := h
  exact ⟨s, t ++ q, by simp [List.append_assoc]⟩

theorem occursIn_of_mem_joinWith (sep : Str) (l : List Str) (x m : Str)
    (hm : m ∈ l) (hx : occursIn x m) : occursIn x (joinWith sep l) := by
  induction l with
  | nil => cases hm
  | cons a l ih =>
    cases l with
    | nil =>
      rw [List.mem_singleton] at hm
      subst hm
      simpa [joinWith] using hx
    | cons b l' =>
      rw [joinWith]
      rcases List.mem_cons.mp hm with rfl | hm'
      · exact occursIn_append_right _ _ _ (occursIn_append_right _ _ _ hx)
      · rw [List.append_assoc]
        exact occursIn_append_left _ _ _ (occursIn_append_left _ _ _ (ih hm'))

theorem validationErrors_eq_nil_iff (files : List VFile) :
    validationErrors files = [] ↔ ∀ f ∈ files, okB (validateFile f) = true := by
  induction files with
  | nil => simp [validationErrors]
  | cons f fs ih =>
    rw [validationErrors, List.filterMap_cons]
    cases hf : validateFile f with
    | ok u =>
      simp only [List.mem_cons]
      rw [← validationErrors]
      constructor
      · intro h g hg
        rcases hg with rfl | hg
        · rw [hf]; rfl
        · exact (ih.mp h) g hg
      · intro h
        exact ih.mpr fun g hg => h g (Or.inr hg)
    | error e =>
      constructor
      · intro h
        exact absurd h (List.cons_ne_nil _ _)
      · intro h
        have hall := h f (List.mem_cons_self _ _)
        rw [hf] at hall
        simp [okB] at hall


theorem mem_validationErrors {files : List VFile} {f : VFile} {e : Str}
    (hf : f ∈ files) (he : validateFile f = .error e) :
    (f.name ++ str ": " ++ e) ∈ validationErrors files := by
  rw [validationErrors, List.mem_filterMap]
  exact ⟨f, hf, by rw [he]⟩

/-- Claim C4: batch validation runs the single-file check on every file and
fails exactly when at least one file fails; on failure the single reported
error contains every failing file's name. -/
theorem validateMultipleFiles_spec (files : List VFile) :
    (okB (validateMultipleFiles files) = true ↔ ∀ f ∈ files, okB (validateFile f) = true) ∧
    ∀ f ∈ files, okB (validateFile f) = false →
      ∃ e, validateMultipleFiles files = .error e ∧ occursIn f.name e := by
  constructor
  · rw [validateMultipleFiles]
    split
    · rename_i hpos
      apply iff_of_false (by simp [okB])
      intro hall
      have hnil : validationErrors files = [] := (validationErrors_eq_nil_iff files).mpr hall
      rw [hnil] at hpos
      simp at hpos
    · rename_i hpos
      apply iff_of_true rfl
      apply (validationErrors_eq_nil_iff files).mp
      cases h : validationErrors files with
      | nil => rfl
      | cons a l => rw [h] at hpos; simp at hpos
  · intro f hf hfail
    obtain ⟨e0, he0⟩ : ∃ e0, validateFile f = .error e0 := by
      cases h : validateFile f with
      | ok u => rw [h] at hfail; simp [okB] at hfail
      | error e0 => exact ⟨e0, rfl⟩
    have hmem := mem_validationErrors hf he0
    have hne : 0 < (validationErrors files).length := by
      cases h : validationErrors files with
      | nil => rw [h] at hmem; cases hmem
      | cons a l => simp
    refine ⟨_, by rw [validateMultipleFiles, if_pos hne], ?_⟩
    apply occursIn_append_left
    apply occursIn_of_mem_joinWith _ _ _ _ hmem
    exact ⟨[], str ": " ++ e0, by simp [List.append_assoc]⟩

theorem analyzeMany_ok_iff (files : List AFile) :
    okB (analyzeMultipleWorkbooks files) = true ↔
      ∀ f ∈ files, okB (analyzeWorkbook f) = true := by
  induction files with
  | nil => simp [analyzeMultipleWorkbooks, okB]
  | cons f fs ih =>
    rw [analyzeMultipleWorkbooks]
    cases hf : analyzeWorkbook f with
    | error e =>
      apply iff_of_false (by simp [okB])
      intro hall
      have hcontra := hall f (List.mem_cons_self _ _)
      rw [hf] at hcontra
      simp [okB] at hcontra
    | ok a =>
      cases hrest : analyzeMultipleWorkbooks fs with
      | error e =>
        apply iff_of_false (by simp [okB])
        rw [hrest] at ih
        intro hall
        have hfs : ∀ g ∈ fs, okB (analyzeWorkbook g) = true :=
          fun g hg => hall g (List.mem_cons_of_mem _ hg)
        have hcontra := ih.mpr hfs
        simp [okB] at hcontra
      | ok rest =>
        apply iff_of_true rfl
        intro g hg
        rcases List.mem_cons.mp hg with rfl | hg'
        · rw [hf]; rfl
        · rw [hrest] at ih
          exact (ih.mp rfl) g hg'

theorem analyzeMany_fail_fast : ∀ (pre : List AFile) (f : AFile) (post : List AFile),
    (∀ g ∈ pre, okB (analyzeWorkbook g) = true) →
    okB (analyzeWorkbook f) = false →
    ∃ e, analyzeMultipleWorkbooks (pre ++ f :: post) = .error e ∧ occursIn f.name e := by
  intro pre
  induction pre with
  | nil =>
    intro f post _ hfail
    rw [List.nil_append, analyzeMultipleWorkbooks]
    cases hf : analyzeWorkbook f with
    | error e =>
      refine ⟨_, rfl, ?_⟩
      exact ⟨str "Failed to analyze ", str ": " ++ e, by simp [List.append_assoc]⟩
    | ok a =>
      rw [hf] at hfail
      simp [okB] at hfail
  | cons g pre ih =>
    intro f post hpre hfail
    rw [List.cons_append, analyzeMultipleWorkbooks]
    have hg := hpre g (List.mem_cons_self _ _)
    cases hga : analyzeWorkbook g with
    | error e =>
      rw [hga] at hg
      simp [okB] at hg
    | ok a =>
      obtain ⟨e, he, hocc⟩ := ih f post (fun g' hg' => hpre g' (List.mem_cons_of_mem _ hg')) hfail
      rw [he]
      exact ⟨e, rfl, hocc⟩

/-- Claim C5: batch analysis processes files in input order and is
fail-fast — it succeeds exactly when every file analyzes, and the first
failing file (all files before it analyzing fine) aborts the batch with an
error naming that file. -/
theorem analyzeMultipleWorkbooks_spec (files : List AFile) :
    (okB (analyzeMultipleWorkbooks files) = true ↔
      ∀ f ∈ files, okB (analyzeWorkbook f) = true) ∧
    ∀ pre f post, files = pre ++ f :: post →
      (∀ g ∈ pre, okB (analyzeWorkbook g) = true) →
      okB (analyzeWorkbook f) = false →
      ∃ e, analyzeMultipleWorkbooks files = .error e ∧ occursIn f.name e :=
  ⟨analyzeMany_ok_iff files,
   fun pre f post hEq hpre hfail => hEq ▸ analyzeMany_fail_fast pre f post hpre hfail⟩


/-- Counterexample to claim C1 as stated: an analysis whose single worksheet
carries a 31-character name (the maximum the container format allows) makes
`combineAllSheets` emit the 32-character name `_<name>`, because
`substring(0, 31 - name.length - 1)` clamps to the empty string. -/
theorem combine_sheet_name_exceeds_31_cex :
    ((combineAllSheets cexAnalyses).names.all fun m => m.length ≤ 31) = false ∧
    '_' :: name31 ∈ (combineAllSheets cexAnalyses).names ∧
    ('_' :: name31).length = 32 := by decide

/-- Counterexample to claim C2 as stated: for file base name `a` and a
31-character sheet name the candidate exceeds 31 characters, yet the truncated
candidate still exceeds 31 characters (it has 32). -/
theorem truncate_exceeds_31_cex :
    31 < (str "a" ++ '_' :: name31).length ∧
    31 < (truncateCandidate (str "a") name31).length := by decide

/-- Witness for claim C1's amended theorem at a concrete one-sheet batch. -/
theorem combine_names_le31_witness :
    (str "f1_Sheet1").length ≤ 31 :=
  combine_names_le31 exSmallAnalyses (by decide) (by decide) (str "f1_Sheet1") (by decide)

/-- Witness for claim C2's amended theorem at a 40-character base name. -/
theorem truncate_keeps_sheet_suffix_witness :
    (truncateCandidate exLongBase (str "Sheet1")).length = 31 ∧
    ('_' :: str "Sheet1") <:+ truncateCandidate exLongBase (str "Sheet1") ∧
    truncateCandidate exLongBase (str "Sheet1") =
      exLongBase.take (30 - (str "Sheet1").length) ++ '_' :: str "Sheet1" :=
  truncate_keeps_sheet_suffix exLongBase (str "Sheet1") (by decide) (by decide)

/-- Witness for claim C8: five worksheets across two files report exactly
`20, 40, 60, 80, 100`. -/
theorem combine_progress_spec_witness :
    0 < totalSheets exProgressAnalyses ∧
    (combineAllSheets exProgressAnalyses).trace = [20, 40, 60, 80, 100] ∧
    (combineAllSheets exProgressAnalyses).trace.getLast? = some 100 :=
  ⟨by decide, by decide, (combine_progress_spec exProgressAnalyses (by decide)).2.2.2⟩

/-- Witness for claim C4 on a two-file batch with one invalid file. -/
theorem validateMultipleFiles_spec_witness :
    ∃ e, validateMultipleFiles [badVFile, goodVFile] = .error e ∧ occursIn badVFile.name e :=
  (validateMultipleFiles_spec [badVFile, goodVFile]).2 badVFile (by decide) (by decide)

/-- Witness for claim C5 on a good file followed by a corrupt file. -/
theorem analyzeMultipleWorkbooks_spec_witness :
    ∃ e, analyzeMultipleWorkbooks [goodAFile, corruptAFile] = .error e ∧
      occursIn corruptAFile.name e :=
  (analyzeMultipleWorkbooks_spec [goodAFile, corruptAFile]).2 [goodAFile] corruptAFile []
    rfl (by decide) (by decide)

/-- Witness for claim C7 at the second (rangeless) sheet of a workbook. -/
theorem analyzeWorksheets_spec_witness :
    ∃ m, (analyzeWorksheets exWb)[1]? = some m ∧
      m.rowCount = 1 ∧ m.columnCount = 1 ∧ m.hasData = false := by
  obtain ⟨-, m, hm, -, -, hnone, -⟩ := analyzeWorksheets_spec exWb 1 (by decide)
  exact ⟨m, hm, hnone (by decide)⟩

/-- Witness for claim C9 on a ten-column row. -/
theorem renderRows_caps8_witness :
    ∃ r, (renderRows [tenColRow])[0]? = some r ∧ r.length ≤ 8 ∧
      r[7]? = tenColRow[7]?.map renderText ∧ r[8]? = none := by
  obtain ⟨-, h⟩ := renderRows_caps8 [tenColRow] 0 7
  obtain ⟨h1, h2, h3⟩ := h (renderRow tenColRow) tenColRow (by decide) (by decide)
  refine ⟨renderRow tenColRow, by decide, h1, h3 (by decide), by decide⟩

/-- Witness for claim C10: 0 and `false` render empty even though their
string forms are `0` and `false`. -/
theorem renderCell_falsy_empty_witness :
    renderText (JSVal.num 0) = [] ∧ renderText (JSVal.boolean false) = [] ∧
    jsToString (JSVal.num 0) = ['0'] ∧ jsToString (JSVal.boolean false) = str "false" :=
  ⟨(renderCell_falsy_empty (JSVal.num 0) (by decide)).2,
   (renderCell_falsy_empty (JSVal.boolean false) (by decide)).2,
   by decide, by decide⟩

end SheetSplitter
